import Mathlib

/-!
Shallow embedding of the durable CRDT replication core (`index.ts`):
an append-only update log and a single snapshot record per document,
a compactor (`syncCompact`), durable reconstruction (`rebuildDurableDoc`),
and the HTTP handlers (`/init`, `/update`, `/add-count`, `/diff`, `/do-sync`,
`/compact`).

The document engine (Yjs) is external to the repository; following the
specification it is modelled as an opaque structure `Engine` whose operations
mirror the exact calls the source makes (`Y.applyUpdate`,
`Y.encodeStateAsUpdate`, `Y.encodeStateVector`, `byteLength`).  `applyUpdate`
returns `Option` because Yjs throws on malformed input.  Stateful code is
embedded by explicit state passing on a `DB` record that models the two
SQLite tables; `seq` assignment models `AUTOINCREMENT` (strictly increasing,
never reused, starting at 1).
-/

/-- The document engine interface, exactly the operations `index.ts` calls on
the Yjs library.  `Doc` is an in-memory document, `Bytes` an encoded update /
full-state / byte array, `SV` a state vector (causal summary). -/
structure Engine (Doc Bytes SV : Type) where
  empty : Doc
  applyUpdate : Doc → Bytes → Option Doc
  encodeStateAsUpdate : Doc → Bytes
  encodeDiff : Doc → SV → Bytes
  encodeStateVector : Doc → SV
  byteLength : Bytes → Nat

/-- A row of the `updates` table: `(doc_id, seq, update_data, origin,
received_at)`; the single `doc_id` and the timestamp play no role in any
claim and are omitted. -/
structure UpdateRecord (Bytes : Type) where
  seq : Nat
  payload : Bytes
  origin : String
deriving DecidableEq

/-- A row of the `snapshots` table: `(doc_id, snapshot_data, last_seq,
updated_at)`; `last_seq` is the watermark. -/
structure SnapshotRow (Bytes : Type) where
  snapshot_data : Bytes
  last_seq : Nat
deriving DecidableEq

/-- The durable state: the `updates` table (kept in ascending insertion
order, as `AUTOINCREMENT` produces it), the at-most-one `snapshots` row, and
the next `AUTOINCREMENT` value. -/
structure DB (Bytes : Type) where
  updates : List (UpdateRecord Bytes)
  snapshot : Option (SnapshotRow Bytes)
  nextSeq : Nat
deriving DecidableEq

/-- Result record of `syncCompact`. -/
structure CompactResult where
  applied : Nat
  deleted : Nat
  before_last_seq : Nat
  after_last_seq : Nat
  snapshot_bytes : Nat
deriving DecidableEq

/-- An HTTP response as far as the claims observe it: status code and the
`seq` field of the JSON body (when present). -/
structure HttpResp where
  status : Nat
  seq : Option Nat
deriving DecidableEq

/-- The remote replica as `/do-sync` observes it: its `/diff` response
(`none` models a `null` update field) and its `/sv` response (`none` models a
falsy `sv` field). -/
structure Peer (Bytes SV : Type) where
  diff : SV → Option Bytes
  sv : Option SV

/-- `dbInsertUpdate`: append one row, assigning the next sequence; returns
the new state and `lastInsertRowid`. -/
def dbInsertUpdate {Bytes : Type} (db : DB Bytes) (updateBytes : Bytes) (origin : String) :
    DB Bytes × Nat :=
  (⟨db.updates ++ [⟨db.nextSeq, updateBytes, origin⟩], db.snapshot, db.nextSeq + 1⟩, db.nextSeq)

/-- `dbGetSnapshotRow`: `(snapBytes, lastSeq)`, with `(null, 0)` when the row
is absent. -/
def dbGetSnapshotRow {Bytes : Type} (db : DB Bytes) : Option Bytes × Nat :=
  match db.snapshot with
  | none => (none, 0)
  | some r => (some r.snapshot_data, r.last_seq)

/-- `dbUpsertSnapshot`: atomic create-or-replace of the snapshot row. -/
def dbUpsertSnapshot {Bytes : Type} (db : DB Bytes) (snapshotBytes : Bytes) (lastSeq : Nat) :
    DB Bytes :=
  ⟨db.updates, some ⟨snapshotBytes, lastSeq⟩, db.nextSeq⟩

/-- `dbLoadUpdatesSince`: `SELECT ... WHERE seq > ? ORDER BY seq ASC`; the
stored list is kept in ascending `seq` order, so filtering preserves the
`ORDER BY`. -/
def dbLoadUpdatesSince {Bytes : Type} (db : DB Bytes) (seqExclusive : Nat) :
    List (UpdateRecord Bytes) :=
  db.updates.filter (fun r => decide (seqExclusive < r.seq))

/-- `dbDeleteUpdatesUpto`: `DELETE ... WHERE seq <= ?`; returns the new state
and `rowsAffected`. -/
def dbDeleteUpdatesUpto {Bytes : Type} (db : DB Bytes) (seqInclusive : Nat) :
    DB Bytes × Nat :=
  (⟨db.updates.filter (fun r => decide (seqInclusive < r.seq)), db.snapshot, db.nextSeq⟩,
   db.updates.length - (db.updates.filter (fun r => decide (seqInclusive < r.seq))).length)

/-- `dbInit`: delete every update row and the snapshot row.  The
`AUTOINCREMENT` counter is not reset by `DELETE`. -/
def dbInit {Bytes : Type} (db : DB Bytes) : DB Bytes :=
  ⟨[], none, db.nextSeq⟩

/-- `dbGetMaxSeq`: `COALESCE(MAX(seq), 0)`. -/
def dbGetMaxSeq {Bytes : Type} (db : DB Bytes) : Nat :=
  db.updates.foldr (fun r m => max r.seq m) 0

/-- The watermark of the durable state: `last_seq` of the snapshot row, `0`
when the row is absent (the second component of `dbGetSnapshotRow`). -/
def wm {Bytes : Type} (db : DB Bytes) : Nat :=
  match db.snapshot with
  | none => 0
  | some r => r.last_seq

/-- `snapBytes ? snapBytes.byteLength : 0` from the no-op branch of
`syncCompact`. -/
def snapLen {Doc Bytes SV : Type} (E : Engine Doc Bytes SV) : Option Bytes → Nat
  | none => 0
  | some b => E.byteLength b

/-- Building a scratch document from the (optional) snapshot bytes: apply
them to a fresh document when present and of positive byte length, exactly
the guard `if (snapBytes && snapBytes.byteLength > 0)` shared by
`syncCompact`, `rebuildDurableDoc` and `/add-count`. -/
def buildFromSnap {Doc Bytes SV : Type} (E : Engine Doc Bytes SV) :
    Option Bytes → Option Doc
  | none => some E.empty
  | some b => if 0 < E.byteLength b then E.applyUpdate E.empty b else some E.empty

/-- Folding a list of update records into a document in order, aborting on
the first engine rejection (the `for ... Y.applyUpdate` loop body). -/
def applyAll {Doc Bytes SV : Type} (E : Engine Doc Bytes SV) :
    Doc → List (UpdateRecord Bytes) → Option Doc
  | d, [] => some d
  | d, r :: rs =>
    match E.applyUpdate d r.payload with
    | none => none
    | some d2 => applyAll E d2 rs

/-- The fold loop of `syncCompact`, which also tracks `lastApplied`
(initialised to `lastSeq`, set to each entry's `seq` before applying it); on
an engine rejection the whole loop aborts and the partial results are
discarded. -/
def foldPending {Doc Bytes SV : Type} (E : Engine Doc Bytes SV) :
    Doc → Nat → List (UpdateRecord Bytes) → Option (Doc × Nat)
  | d, lastApplied, [] => some (d, lastApplied)
  | d, _, r :: rs =>
    match E.applyUpdate d r.payload with
    | none => none
    | some d2 => foldPending E d2 r.seq rs

/-- `syncCompact`: load the snapshot row, build a scratch document from it,
load the pending entries after the watermark, return a no-op result when
there are none, otherwise fold them (aborting with a surfaced error on a
rejected step), then upsert the new snapshot at the highest folded sequence
and delete the folded range.  Errors carry the thrown message; the state
component is the durable state after the call. -/
def syncCompact {Doc Bytes SV : Type} (E : Engine Doc Bytes SV) (db : DB Bytes) :
    DB Bytes × Except String CompactResult :=
  match buildFromSnap E (dbGetSnapshotRow db).1 with
  | none => (db, Except.error "failed to apply snapshot")
  | some tmp0 =>
    if (dbLoadUpdatesSince db (dbGetSnapshotRow db).2).isEmpty then
      (db, Except.ok ⟨0, 0, (dbGetSnapshotRow db).2, (dbGetSnapshotRow db).2,
                      snapLen E (dbGetSnapshotRow db).1⟩)
    else
      match foldPending E tmp0 (dbGetSnapshotRow db).2
          (dbLoadUpdatesSince db (dbGetSnapshotRow db).2) with
      | none => (db, Except.error "failed to apply pending updates")
      | some (tmp, lastApplied) =>
        ((dbDeleteUpdatesUpto (dbUpsertSnapshot db (E.encodeStateAsUpdate tmp) lastApplied)
            lastApplied).1,
         Except.ok ⟨(dbLoadUpdatesSince db (dbGetSnapshotRow db).2).length,
                    (dbDeleteUpdatesUpto
                      (dbUpsertSnapshot db (E.encodeStateAsUpdate tmp) lastApplied)
                      lastApplied).2,
                    (dbGetSnapshotRow db).2, lastApplied,
                    E.byteLength (E.encodeStateAsUpdate tmp)⟩)

/-- `rebuildDurableDoc`: reassemble a temporary document from the snapshot
row plus every retained update after the watermark. -/
def rebuildDurableDoc {Doc Bytes SV : Type} (E : Engine Doc Bytes SV) (db : DB Bytes) :
    Option Doc :=
  match buildFromSnap E (dbGetSnapshotRow db).1 with
  | none => none
  | some d0 => applyAll E d0 (dbLoadUpdatesSince db (dbGetSnapshotRow db).2)

/-- `applyIncomingUpdateB64`: decode the base64 field (`Buffer.from` never
throws in Node), reject a zero-length result (`throw 'empty base64 update'`,
modelled by `none`), otherwise insert the row with origin `remote`. -/
def applyIncomingUpdateB64 {Doc Bytes SV : Type} (E : Engine Doc Bytes SV)
    (decode : String → Bytes) (b64 : String) (db : DB Bytes) :
    Option (DB Bytes × Nat) :=
  if E.byteLength (decode b64) = 0 then none
  else some (dbInsertUpdate db (decode b64) "remote")

/-- The `POST /update` handler: a missing or non-string `update` field
(modelled by `none`) is answered with 400 and no state change; otherwise
`applyIncomingUpdateB64` runs, its throw being answered with
`e.status || 500 = 500`, and success with `{ok, seq}`. -/
def updateHandler {Doc Bytes SV : Type} (E : Engine Doc Bytes SV)
    (decode : String → Bytes) (field : Option String) (db : DB Bytes) :
    DB Bytes × HttpResp :=
  match field with
  | none => (db, ⟨400, none⟩)
  | some s =>
    match applyIncomingUpdateB64 E decode s db with
    | none => (db, ⟨500, none⟩)
    | some (db2, seq) => (db2, ⟨200, some seq⟩)

/-- The `GET /init` handler: `dbInit`, then seed a fresh document (`count=1`,
`message='Hello'`, empty `items`; abstracted as the constant document
`seed`), encode its full state, read `MAX(seq)` of the now-empty log and
upsert the snapshot at that watermark; responds with that `seq`. -/
def initHandler {Doc Bytes SV : Type} (E : Engine Doc Bytes SV) (seed : Doc)
    (db : DB Bytes) : DB Bytes × Nat :=
  (dbUpsertSnapshot (dbInit db) (E.encodeStateAsUpdate seed) (dbGetMaxSeq (dbInit db)),
   dbGetMaxSeq (dbInit db))

/-- The delta `GET /add-count` computes, as a function of the snapshot row
alone: restore a temporary document from the snapshot bytes, take its state
vector, mutate it (`root.set('count', cur+1)`, abstracted as `bump`), and
encode the increment against the saved state vector. -/
def addCountDeltaSnap {Doc Bytes SV : Type} (E : Engine Doc Bytes SV) (bump : Doc → Doc)
    (snap : Option (SnapshotRow Bytes)) : Option Bytes :=
  match buildFromSnap E (snap.map (fun r => r.snapshot_data)) with
  | none => none
  | some ydoc => some (E.encodeDiff (bump ydoc) (E.encodeStateVector ydoc))

/-- The `GET /add-count` handler: reads only the snapshot row, restores a
temporary document from it, saves the state vector, applies the mutation,
extracts the increment and appends it with origin `local`.  `none` models
the uncaught engine throw on malformed snapshot bytes. -/
def addCountHandler {Doc Bytes SV : Type} (E : Engine Doc Bytes SV) (bump : Doc → Doc)
    (db : DB Bytes) : Option (DB Bytes) :=
  match buildFromSnap E (dbGetSnapshotRow db).1 with
  | none => none
  | some ydoc =>
    some (dbInsertUpdate db (E.encodeDiff (bump ydoc) (E.encodeStateVector ydoc)) "local").1

/-- The `POST /diff` handler: a missing or non-string `sv` field (modelled by
`none`) is answered with `{update: null}` at once; otherwise the durable
document is rebuilt and its delta against the decoded state vector returned.
The outer `Option` is the uncaught throw of `rebuildDurableDoc`; the inner
one is the `null`-or-update response field. -/
def diffHandler {Doc Bytes SV : Type} (E : Engine Doc Bytes SV)
    (svDecode : String → SV) (field : Option String) (db : DB Bytes) :
    Option (Option Bytes) :=
  match field with
  | none => some none
  | some s =>
    match rebuildDurableDoc E db with
    | none => none
    | some d => some (some (E.encodeDiff d (svDecode s)))

/-- The push phase of `/do-sync`: with a falsy peer `sv` nothing is pushed;
otherwise the delta of the (already refreshed) local document against the
peer's state vector is pushed when of positive byte length.  The second
component records what was pushed to the peer. -/
def pushPhase {Doc Bytes SV : Type} (E : Engine Doc Bytes SV) (P : Peer Bytes SV)
    (db : DB Bytes) (ydoc : Doc) : DB Bytes × Except String (Option Bytes) :=
  match P.sv with
  | none => (db, Except.ok none)
  | some svPeer =>
    if 0 < E.byteLength (E.encodeDiff ydoc svPeer) then
      (db, Except.ok (some (E.encodeDiff ydoc svPeer)))
    else
      (db, Except.ok none)

/-- The `GET /do-sync` handler: local compaction, durable rebuild, pull the
peer's diff against the local state vector; when a delta arrives, append it
with origin `pull`, re-compact and re-rebuild; only then compute and push
the delta against the peer's state vector.  Errors abort the remaining
steps; the state component is the durable state at the point of abort. -/
def doSync {Doc Bytes SV : Type} (E : Engine Doc Bytes SV) (P : Peer Bytes SV)
    (db0 : DB Bytes) : DB Bytes × Except String (Option Bytes) :=
  match syncCompact E db0 with
  | (db1, Except.error e) => (db1, Except.error e)
  | (db1, Except.ok _) =>
    match rebuildDurableDoc E db1 with
    | none => (db1, Except.error "rebuild failed")
    | some ydoc =>
      match P.diff (E.encodeStateVector ydoc) with
      | some diffBytes =>
        match syncCompact E (dbInsertUpdate db1 diffBytes "pull").1 with
        | (db3, Except.error e) => (db3, Except.error e)
        | (db3, Except.ok _) =>
          match rebuildDurableDoc E db3 with
          | none => (db3, Except.error "rebuild failed")
          | some ydoc2 => pushPhase E P db3 ydoc2
      | none => pushPhase E P db1 ydoc

/-- The durable state of a fresh deployment: both tables empty,
`AUTOINCREMENT` about to assign 1. -/
def dbInit0 {Bytes : Type} : DB Bytes :=
  ⟨[], none, 1⟩

/-- One state-changing operation of the public surface.  `decode` and the
request fields are arbitrary (any client input), as is the peer a sync talks
to; error responses leave the returned state as the handler does. -/
inductive Step {Doc Bytes SV : Type} (E : Engine Doc Bytes SV) (bump : Doc → Doc)
    (seed : Doc) : DB Bytes → DB Bytes → Prop where
  | init (db : DB Bytes) : Step E bump seed db (initHandler E seed db).1
  | update (decode : String → Bytes) (field : Option String) (db : DB Bytes) :
      Step E bump seed db (updateHandler E decode field db).1
  | addCount (db db' : DB Bytes) : addCountHandler E bump db = some db' →
      Step E bump seed db db'
  | compact (db : DB Bytes) : Step E bump seed db (syncCompact E db).1
  | dosync (P : Peer Bytes SV) (db : DB Bytes) : Step E bump seed db (doSync E P db).1

/-- A durable state reachable from a fresh deployment by operations of the
public surface. -/
def Reachable {Doc Bytes SV : Type} (E : Engine Doc Bytes SV) (bump : Doc → Doc)
    (seed : Doc) (db : DB Bytes) : Prop :=
  Relation.ReflTransGen (Step E bump seed) dbInit0 db

/-- Structural invariant of the durable state: the `AUTOINCREMENT` counter is
positive and strictly above every assigned sequence and the watermark, the
log is in strictly ascending sequence order, and every retained entry lies
strictly above the watermark. -/
structure DBInv {Bytes : Type} (db : DB Bytes) : Prop where
  posNext : 0 < db.nextSeq
  seqBound : ∀ r ∈ db.updates, r.seq < db.nextSeq
  wmBound : wm db < db.nextSeq
  sorted : db.updates.Pairwise (fun a b => a.seq < b.seq)
  retained : ∀ r ∈ db.updates, wm db < r.seq

/-- Documents of the concrete witness engine: the set of operation
identifiers the document has incorporated. -/
abbrev YDoc := Finset ℕ

/-- Encoded byte arrays of the concrete witness engine: `none` models a
zero-length byte array (which the engine rejects), `some ops` a well-formed
encoding carrying the set of operations. -/
abbrev YBytes := Option (Finset ℕ)

/-- State vectors of the concrete witness engine: the set of operations the
summarised document knows. -/
abbrev YSV := Finset ℕ

/-- Byte length in the concrete witness engine: a well-formed encoding has a
header plus one byte per operation, so always positive. -/
def yByteLength : YBytes → Nat
  | none => 0
  | some ops => ops.card + 1

/-- Applying an encoded update in the concrete witness engine: reject the
zero-length array, otherwise merge in the carried operations (an idempotent,
commutative union, as the specification's engine contract demands). -/
def yApply (d : YDoc) : YBytes → Option YDoc
  | none => none
  | some ops => some (d ∪ ops)

/-- Full-state encoding in the concrete witness engine. -/
def yEncode (d : YDoc) : YBytes :=
  some d

/-- Delta encoding against a state vector in the concrete witness engine:
exactly the operations the summary does not dominate. -/
def yDiff (d : YDoc) (sv : YSV) : YBytes :=
  some (d \ sv)

/-- The operations carried by an encoded byte array of the concrete witness
engine. -/
def yOps : YBytes → Finset ℕ
  | none => ∅
  | some ops => ops

/-- The concrete witness engine: an instance of the specification's engine
contract with fully executable, decidable operations. -/
def YModel : Engine YDoc YBytes YSV where
  empty := ∅
  applyUpdate := yApply
  encodeStateAsUpdate := yEncode
  encodeDiff := yDiff
  encodeStateVector := fun d => d
  byteLength := yByteLength

/-- Base64 decoding for the concrete witness engine: the empty string
decodes to the zero-length array, anything else to an encoding carrying the
character codes as operations. -/
def yDecode (s : String) : YBytes :=
  if s.data = [] then none else some (s.data.map Char.toNat).toFinset

/-- State-vector decoding for the concrete witness engine. -/
def ySvDecode (s : String) : YSV :=
  (s.data.map Char.toNat).toFinset

/-- The `/add-count` mutation (`root.set('count', cur+1)`) abstracted for the
concrete witness engine: the increment is one fresh operation. -/
def yBump (d : YDoc) : YDoc :=
  insert 99 d

/-- The document seeded by `/init` (`count=1`, `message='Hello'`, empty
`items`), abstracted for the concrete witness engine as two operations; it
is not the empty document. -/
def ySeed : YDoc :=
  {10, 11}

/-- A peer running the same protocol over the concrete witness engine and
holding document `Q`: its `/diff` endpoint answers with the delta of `Q`
against the submitted state vector, its `/sv` endpoint with the state vector
of `Q`. -/
def yPeer (Q : Finset ℕ) : Peer YBytes YSV where
  diff := fun sv => some (yDiff Q sv)
  sv := some Q

/-- The value of `lastApplied` after the fold loop: the sequence of the last
pending entry, or the initial watermark for an empty list. -/
def lastSeqD {Bytes : Type} (a : Nat) (l : List (UpdateRecord Bytes)) : Nat :=
  match l.getLast? with
  | none => a
  | some r => r.seq

/-- Decidable equality of `Except` results, to evaluate the embedded
operations on concrete inputs. -/
instance {ε α : Type} [DecidableEq ε] [DecidableEq α] : DecidableEq (Except ε α) := fun a b =>
  match a, b with
  | Except.error x, Except.error y =>
    if h : x = y then Decidable.isTrue (by rw [h])
    else Decidable.isFalse (by intro hc; injection hc; contradiction)
  | Except.error _, Except.ok _ => Decidable.isFalse (fun hc => Except.noConfusion hc)
  | Except.ok _, Except.error _ => Decidable.isFalse (fun hc => Except.noConfusion hc)
  | Except.ok x, Except.ok y =>
    if h : x = y then Decidable.isTrue (by rw [h])
    else Decidable.isFalse (by intro hc; injection hc; contradiction)

/-- Example durable state for concrete evaluations: one retained update
(sequence 1, carrying operation 5), no snapshot row yet, next sequence 2. -/
def dbA : DB YBytes :=
  ⟨[⟨1, some {5}, "remote"⟩], none, 2⟩

/-- The durable state `syncCompact` produces from `dbA`: empty log, snapshot
holding operation 5 at watermark 1. -/
def dbAC : DB YBytes :=
  ⟨[], some ⟨some {5}, 1⟩, 2⟩

/-- Example durable state whose single pending entry carries a zero-length
payload, which the engine rejects as malformed. -/
def dbBad : DB YBytes :=
  ⟨[⟨1, none, "remote"⟩], none, 2⟩

theorem dbGetSnapshotRow_fst {Bytes : Type} (db : DB Bytes) :
    (dbGetSnapshotRow db).1 = db.snapshot.map (fun r => r.snapshot_data) := by
  rcases db with ⟨u, s, n⟩
  cases s <;> rfl

theorem dbGetSnapshotRow_snd {Bytes : Type} (db : DB Bytes) :
    (dbGetSnapshotRow db).2 = wm db := by
  rcases db with ⟨u, s, n⟩
  cases s <;> rfl

theorem getLast?_mem_of_eq {α : Type} {l : List α} {g : α} (h : l.getLast? = some g) :
    g ∈ l := by
  induction l with
  | nil => simp at h
  | cons a as ih =>
    cases as with
    | nil => simp at h; simp [h]
    | cons b bs =>
      rw [List.getLast?_cons_cons] at h
      exact List.mem_cons_of_mem a (ih h)

theorem sorted_le_getLast {Bytes : Type} {l : List (UpdateRecord Bytes)}
    (hs : l.Pairwise (fun a b => a.seq < b.seq)) {g : UpdateRecord Bytes}
    (hg : l.getLast? = some g) : ∀ r ∈ l, r.seq ≤ g.seq := by
  induction l with
  | nil => simp at hg
  | cons a as ih =>
    cases as with
    | nil =>
      simp at hg
      intro r hr
      simp at hr
      simp [hr, hg]
    | cons b bs =>
      rw [List.getLast?_cons_cons] at hg
      intro r hr
      rcases List.mem_cons.mp hr with h1 | h2
      · have hga : g ∈ b :: bs := getLast?_mem_of_eq hg
        have := (List.pairwise_cons.mp hs).1 g hga
        exact h1 ▸ Nat.le_of_lt this
      · exact ih (List.pairwise_cons.mp hs).2 hg r h2

theorem lastSeqD_cons {Bytes : Type} (a : Nat) (r : UpdateRecord Bytes)
    (rs : List (UpdateRecord Bytes)) : lastSeqD a (r :: rs) = lastSeqD r.seq rs := by
  cases rs with
  | nil => simp [lastSeqD]
  | cons b bs =>
    unfold lastSeqD
    rw [List.getLast?_cons_cons]
    cases hgl : (b :: bs).getLast? with
    | none => exact absurd (List.getLast?_eq_none_iff.mp hgl) (by simp)
    | some g => simp [hgl]

theorem foldPending_eq {Doc Bytes SV : Type} (E : Engine Doc Bytes SV)
    (d : Doc) (a : Nat) (l : List (UpdateRecord Bytes)) :
    foldPending E d a l = (applyAll E d l).map (fun x => (x, lastSeqD a l)) := by
  induction l generalizing d a with
  | nil => simp [foldPending, applyAll, lastSeqD]
  | cons r rs ih =>
    cases h : E.applyUpdate d r.payload with
    | none => simp [foldPending, applyAll, h]
    | some d2 => simp [foldPending, applyAll, h, ih, lastSeqD_cons]

theorem applyAll_append {Doc Bytes SV : Type} (E : Engine Doc Bytes SV)
    (d : Doc) (l₁ l₂ : List (UpdateRecord Bytes)) :
    applyAll E d (l₁ ++ l₂) = (applyAll E d l₁).bind (fun x => applyAll E x l₂) := by
  induction l₁ generalizing d with
  | nil => simp [applyAll]
  | cons r rs ih =>
    cases h : E.applyUpdate d r.payload with
    | none => simp [applyAll, h]
    | some d2 => simp [applyAll, h, ih]

theorem syncCompact_spec {Doc Bytes SV : Type} (E : Engine Doc Bytes SV)
    (db db' : DB Bytes) (res : CompactResult)
    (h : syncCompact E db = (db', Except.ok res)) :
    (∃ tmp0, buildFromSnap E (db.snapshot.map (fun r => r.snapshot_data)) = some tmp0 ∧
      dbLoadUpdatesSince db (wm db) = [] ∧ db' = db) ∨
    (∃ tmp0 tmp g,
      buildFromSnap E (db.snapshot.map (fun r => r.snapshot_data)) = some tmp0 ∧
      (dbLoadUpdatesSince db (wm db)).getLast? = some g ∧
      applyAll E tmp0 (dbLoadUpdatesSince db (wm db)) = some tmp ∧
      db' = ⟨db.updates.filter (fun r => decide (g.seq < r.seq)),
             some ⟨E.encodeStateAsUpdate tmp, g.seq⟩, db.nextSeq⟩) := by
  unfold syncCompact at h
  rw [dbGetSnapshotRow_fst, dbGetSnapshotRow_snd] at h
  cases hb : buildFromSnap E (db.snapshot.map (fun r => r.snapshot_data)) with
  | none => rw [hb] at h; simp at h
  | some tmp0 =>
    rw [hb] at h
    dsimp only at h
    by_cases hpe : (dbLoadUpdatesSince db (wm db)).isEmpty
    · rw [if_pos hpe] at h
      simp only [Prod.mk.injEq] at h
      exact Or.inl ⟨tmp0, rfl, List.isEmpty_iff.mp hpe, h.1.symm⟩
    · rw [if_neg hpe] at h
      cases hf : foldPending E tmp0 (wm db) (dbLoadUpdatesSince db (wm db)) with
      | none => simp [hf] at h
      | some pr =>
        rcases pr with ⟨tmp, la⟩
        rw [hf] at h
        rw [foldPending_eq] at hf
        cases ha : applyAll E tmp0 (dbLoadUpdatesSince db (wm db)) with
        | none => rw [ha] at hf; simp at hf
        | some tmp2 =>
          rw [ha] at hf
          simp only [Option.map_some, Option.map_some', Option.some.injEq, Prod.mk.injEq] at hf
          obtain ⟨htmp, hla⟩ := hf
          have hne : dbLoadUpdatesSince db (wm db) ≠ [] := by
            intro hc
            rw [hc] at hpe
            simp at hpe
          obtain ⟨g, hg⟩ : ∃ g, (dbLoadUpdatesSince db (wm db)).getLast? = some g := by
            cases hgl : (dbLoadUpdatesSince db (wm db)).getLast? with
            | none => exact absurd (List.getLast?_eq_none_iff.mp hgl) hne
            | some g => exact ⟨g, rfl⟩
          have hla2 : la = g.seq := by rw [← hla]; simp [lastSeqD, hg]
          refine Or.inr ⟨tmp0, tmp, g, rfl, hg, htmp ▸ ha, ?_⟩
          simp only [Prod.mk.injEq] at h
          subst hla2
          rw [← h.1]
          simp [dbDeleteUpdatesUpto, dbUpsertSnapshot]

theorem syncCompact_fst_cases {Doc Bytes SV : Type} (E : Engine Doc Bytes SV) (db : DB Bytes) :
    (syncCompact E db).1 = db ∨
    ∃ b g, g ∈ db.updates ∧ wm db < g.seq ∧
      (syncCompact E db).1 = ⟨db.updates.filter (fun r => decide (g.seq < r.seq)),
                              some ⟨b, g.seq⟩, db.nextSeq⟩ := by
  unfold syncCompact
  rw [dbGetSnapshotRow_fst, dbGetSnapshotRow_snd]
  cases hb : buildFromSnap E (db.snapshot.map (fun r => r.snapshot_data)) with
  | none => exact Or.inl rfl
  | some tmp0 =>
    dsimp only
    by_cases hpe : (dbLoadUpdatesSince db (wm db)).isEmpty
    · rw [if_pos hpe]
      exact Or.inl rfl
    · rw [if_neg hpe]
      cases hf : foldPending E tmp0 (wm db) (dbLoadUpdatesSince db (wm db)) with
      | none => exact Or.inl rfl
      | some pr =>
        rcases pr with ⟨tmp, la⟩
        rw [foldPending_eq] at hf
        cases ha : applyAll E tmp0 (dbLoadUpdatesSince db (wm db)) with
        | none => rw [ha] at hf; simp at hf
        | some tmp2 =>
          rw [ha] at hf
          simp only [Option.map_some, Option.map_some', Option.some.injEq,
            Prod.mk.injEq] at hf
          obtain ⟨htmp, hla⟩ := hf
          have hne : dbLoadUpdatesSince db (wm db) ≠ [] := by
            intro hc
            rw [hc] at hpe
            simp at hpe
          obtain ⟨g, hg⟩ : ∃ g, (dbLoadUpdatesSince db (wm db)).getLast? = some g := by
            cases hgl : (dbLoadUpdatesSince db (wm db)).getLast? with
            | none => exact absurd (List.getLast?_eq_none_iff.mp hgl) hne
            | some g => exact ⟨g, rfl⟩
          have hla2 : la = g.seq := by rw [← hla]; simp [lastSeqD, hg]
          have hgmem : g ∈ dbLoadUpdatesSince db (wm db) := getLast?_mem_of_eq hg
          have hgmem2 := List.mem_filter.mp hgmem
          refine Or.inr ⟨E.encodeStateAsUpdate tmp, g, hgmem2.1,
            of_decide_eq_true hgmem2.2, ?_⟩
          subst hla2
          rfl

theorem inv_syncCompact {Doc Bytes SV : Type} (E : Engine Doc Bytes SV) (db : DB Bytes)
    (h : DBInv db) : DBInv (syncCompact E db).1 := by
  rcases syncCompact_fst_cases E db with heq | ⟨b, g, hg, hwg, heq⟩
  · rw [heq]; exact h
  · rw [heq]
    constructor
    · exact h.posNext
    · intro r hr
      exact h.seqBound r (List.mem_of_mem_filter hr)
    · exact h.seqBound g hg
    · exact h.sorted.sublist (List.filter_sublist db.updates)
    · intro r hr
      exact of_decide_eq_true (List.mem_filter.mp hr).2

theorem inv_dbInsertUpdate {Bytes : Type} (db : DB Bytes) (u : Bytes) (o : String)
    (h : DBInv db) : DBInv (dbInsertUpdate db u o).1 := by
  unfold dbInsertUpdate
  dsimp only
  constructor
  · exact Nat.succ_pos db.nextSeq
  · intro r hr
    rcases List.mem_append.mp hr with h1 | h2
    · exact Nat.lt_trans (h.seqBound r h1) (Nat.lt_succ_self _)
    · simp at h2
      simp [h2, Nat.lt_succ_self]
  · exact Nat.lt_trans h.wmBound (Nat.lt_succ_self _)
  · rw [List.pairwise_append]
    refine ⟨h.sorted, List.pairwise_singleton _ _, ?_⟩
    intro a ha b hb
    simp at hb
    simp [hb]
    exact h.seqBound a ha
  · intro r hr
    rcases List.mem_append.mp hr with h1 | h2
    · exact h.retained r h1
    · simp at h2
      simp [h2]
      exact h.wmBound

theorem inv_initHandler {Doc Bytes SV : Type} (E : Engine Doc Bytes SV) (seed : Doc)
    (db : DB Bytes) (h : DBInv db) : DBInv (initHandler E seed db).1 := by
  constructor
  · exact h.posNext
  · intro r hr
    simp [initHandler, dbInit, dbUpsertSnapshot] at hr
  · exact h.posNext
  · simp [initHandler, dbInit, dbUpsertSnapshot]
  · intro r hr
    simp [initHandler, dbInit, dbUpsertSnapshot] at hr

theorem updateHandler_fst_cases {Doc Bytes SV : Type} (E : Engine Doc Bytes SV)
    (decode : String → Bytes) (field : Option String) (db : DB Bytes) :
    (updateHandler E decode field db).1 = db ∨
    ∃ u, (updateHandler E decode field db).1 = (dbInsertUpdate db u "remote").1 := by
  cases field with
  | none => exact Or.inl rfl
  | some s =>
    unfold updateHandler applyIncomingUpdateB64
    dsimp only
    by_cases hz : E.byteLength (decode s) = 0
    · rw [if_pos hz]
      exact Or.inl rfl
    · rw [if_neg hz]
      exact Or.inr ⟨decode s, rfl⟩

theorem addCountHandler_eq_insert {Doc Bytes SV : Type} (E : Engine Doc Bytes SV)
    (bump : Doc → Doc) (db db' : DB Bytes) (h : addCountHandler E bump db = some db') :
    ∃ u, db' = (dbInsertUpdate db u "local").1 := by
  unfold addCountHandler at h
  cases hb : buildFromSnap E (dbGetSnapshotRow db).1 with
  | none => rw [hb] at h; simp at h
  | some ydoc =>
    rw [hb] at h
    simp only [Option.some.injEq] at h
    exact ⟨E.encodeDiff (bump ydoc) (E.encodeStateVector ydoc), h.symm⟩

theorem pushPhase_fst {Doc Bytes SV : Type} (E : Engine Doc Bytes SV) (P : Peer Bytes SV)
    (db : DB Bytes) (ydoc : Doc) : (pushPhase E P db ydoc).1 = db := by
  unfold pushPhase
  cases P.sv with
  | none => rfl
  | some svPeer =>
    dsimp only
    split <;> rfl

theorem inv_doSync {Doc Bytes SV : Type} (E : Engine Doc Bytes SV) (P : Peer Bytes SV)
    (db : DB Bytes) (h : DBInv db) : DBInv (doSync E P db).1 := by
  unfold doSync
  cases hc1 : syncCompact E db with
  | mk db1 r1 =>
    have h1 : DBInv db1 := by
      have := inv_syncCompact E db h
      rw [hc1] at this
      exact this
    cases r1 with
    | error e => exact h1
    | ok res1 =>
      dsimp only
      cases rebuildDurableDoc E db1 with
      | none => exact h1
      | some ydoc =>
        dsimp only
        cases P.diff (E.encodeStateVector ydoc) with
        | none => rw [pushPhase_fst]; exact h1
        | some diffBytes =>
          dsimp only
          have h2 : DBInv (dbInsertUpdate db1 diffBytes "pull").1 :=
            inv_dbInsertUpdate db1 diffBytes "pull" h1
          cases hc2 : syncCompact E (dbInsertUpdate db1 diffBytes "pull").1 with
          | mk db3 r3 =>
            have h3 : DBInv db3 := by
              have := inv_syncCompact E (dbInsertUpdate db1 diffBytes "pull").1 h2
              rw [hc2] at this
              exact this
            cases r3 with
            | error e => exact h3
            | ok res3 =>
              dsimp only
              cases rebuildDurableDoc E db3 with
              | none => exact h3
              | some ydoc2 => rw [pushPhase_fst]; exact h3

theorem inv_step {Doc Bytes SV : Type} (E : Engine Doc Bytes SV) (bump : Doc → Doc)
    (seed : Doc) (db db' : DB Bytes) (h : DBInv db) (hs : Step E bump seed db db') :
    DBInv db' := by
  cases hs with
  | init d => exact inv_initHandler E seed db h
  | update decode field d =>
    rcases updateHandler_fst_cases E decode field db with heq | ⟨u, heq⟩
    · rw [heq]; exact h
    · rw [heq]; exact inv_dbInsertUpdate db u "remote" h
  | addCount d d2 hac =>
    obtain ⟨u, hu⟩ := addCountHandler_eq_insert E bump db db' hac
    rw [hu]
    exact inv_dbInsertUpdate db u "local" h
  | compact d => exact inv_syncCompact E db h
  | dosync P d => exact inv_doSync E P db h

theorem inv_dbInit0 {Bytes : Type} : DBInv (dbInit0 : DB Bytes) := by
  constructor
  · exact Nat.one_pos
  · intro r hr
    simp [dbInit0] at hr
  · exact Nat.one_pos
  · simp [dbInit0]
  · intro r hr
    simp [dbInit0] at hr

theorem reachable_inv {Doc Bytes SV : Type} (E : Engine Doc Bytes SV) (bump : Doc → Doc)
    (seed : Doc) (db : DB Bytes) (h : Reachable E bump seed db) : DBInv db := by
  induction h with
  | refl => exact inv_dbInit0
  | tail hab hbc ih => exact inv_step E bump seed _ _ ih hbc

theorem yRound (d : YDoc) :
    YModel.applyUpdate YModel.empty (YModel.encodeStateAsUpdate d) = some d := by
  show yApply ∅ (yEncode d) = some d
  simp [yApply, yEncode]

theorem yPos (d : YDoc) : 0 < YModel.byteLength (YModel.encodeStateAsUpdate d) := by
  show 0 < yByteLength (yEncode d)
  simp [yByteLength, yEncode]

theorem updateHandler_reject_empty {Doc Bytes SV : Type} (E : Engine Doc Bytes SV)
    (decode : String → Bytes) (db : DB Bytes) (s : String)
    (hz : E.byteLength (decode s) = 0) :
    updateHandler E decode (some s) db = (db, ⟨500, none⟩) := by
  unfold updateHandler applyIncomingUpdateB64
  dsimp only
  rw [if_pos hz]

theorem updateHandler_accept {Doc Bytes SV : Type} (E : Engine Doc Bytes SV)
    (decode : String → Bytes) (db : DB Bytes) (s : String)
    (hz : ¬ E.byteLength (decode s) = 0) :
    updateHandler E decode (some s) db =
      ((dbInsertUpdate db (decode s) "remote").1, ⟨200, some db.nextSeq⟩) := by
  unfold updateHandler applyIncomingUpdateB64
  dsimp only
  rw [if_neg hz]
  dsimp only [dbInsertUpdate]

theorem wm_dbInsertUpdate {Bytes : Type} (db : DB Bytes) (u : Bytes) (o : String) :
    wm (dbInsertUpdate db u o).1 = wm db := rfl

theorem dbLoadUpdatesSince_insert {Bytes : Type} (db : DB Bytes) (u : Bytes) (o : String)
    (hwm : wm db < db.nextSeq) :
    dbLoadUpdatesSince (dbInsertUpdate db u o).1 (wm db) =
      dbLoadUpdatesSince db (wm db) ++ [⟨db.nextSeq, u, o⟩] := by
  unfold dbLoadUpdatesSince dbInsertUpdate
  dsimp only
  rw [List.filter_append]
  simp [hwm]

theorem rebuild_insert {Doc Bytes SV : Type} (E : Engine Doc Bytes SV) (db : DB Bytes)
    (u : Bytes) (o : String) (d : Doc) (hwm : wm db < db.nextSeq)
    (hd : rebuildDurableDoc E db = some d) :
    rebuildDurableDoc E (dbInsertUpdate db u o).1 = E.applyUpdate d u := by
  unfold rebuildDurableDoc at hd ⊢
  rw [dbGetSnapshotRow_fst, dbGetSnapshotRow_snd] at hd ⊢
  have hsnap : (dbInsertUpdate db u o).1.snapshot = db.snapshot := rfl
  rw [hsnap, wm_dbInsertUpdate, dbLoadUpdatesSince_insert db u o hwm]
  cases hb : buildFromSnap E (db.snapshot.map (fun r => r.snapshot_data)) with
  | none => rw [hb] at hd; simp at hd
  | some d0 =>
    rw [hb] at hd
    dsimp only at hd ⊢
    rw [applyAll_append, hd]
    cases h2 : E.applyUpdate d u with
    | none => simp [applyAll, h2]
    | some d2 => simp [applyAll, h2]

/-- C3: if any fold step of compaction is rejected by the engine (malformed
payload), the entire compaction aborts with a surfaced error and the
returned durable state — snapshot record and update log alike — is exactly
the state before the attempt; no pending entry is consumed. -/
theorem claim_C3 {Doc Bytes SV : Type} (E : Engine Doc Bytes SV) (db : DB Bytes)
    (tmp0 : Doc)
    (hb : buildFromSnap E (dbGetSnapshotRow db).1 = some tmp0)
    (hf : foldPending E tmp0 (dbGetSnapshotRow db).2
        (dbLoadUpdatesSince db (dbGetSnapshotRow db).2) = none) :
    syncCompact E db = (db, Except.error "failed to apply pending updates") := by
  unfold syncCompact
  rw [hb]
  dsimp only
  have hne : ¬ (dbLoadUpdatesSince db (dbGetSnapshotRow db).2).isEmpty := by
    intro hc
    rw [List.isEmpty_iff.mp hc] at hf
    simp [foldPending] at hf
  rw [if_neg hne, hf]

/-- C3 witness: a concrete state whose single pending entry carries a
zero-length payload; the fold is rejected and the state is returned
untouched with the surfaced error. -/
theorem claim_C3_witness :
    syncCompact YModel dbBad = (dbBad, Except.error "failed to apply pending updates") :=
  claim_C3 YModel dbBad ∅ (by decide) (by decide)

/-- C7: `POST /update` with a missing or invalid `update` field returns
HTTP 400 and leaves the durable state (in particular the update log)
unchanged; with a field decoding to a non-empty delta it appends exactly one
log record and returns the assigned sequence; a field decoding to empty
bytes is rejected (the thrown error surfaces as a 500 response) with no
state change. -/
theorem claim_C7 {Doc Bytes SV : Type} (E : Engine Doc Bytes SV)
    (decode : String → Bytes) (db : DB Bytes) :
    updateHandler E decode none db = (db, ⟨400, none⟩) ∧
    (∀ s, E.byteLength (decode s) = 0 →
      updateHandler E decode (some s) db = (db, ⟨500, none⟩)) ∧
    (∀ s, ¬ E.byteLength (decode s) = 0 →
      updateHandler E decode (some s) db =
        (⟨db.updates ++ [⟨db.nextSeq, decode s, "remote"⟩], db.snapshot, db.nextSeq + 1⟩,
         ⟨200, some db.nextSeq⟩)) := by
  refine ⟨rfl, ?_, ?_⟩
  · intro s hz
    exact updateHandler_reject_empty E decode db s hz
  · intro s hz
    exact updateHandler_accept E decode db s hz

/-- C7 witness: the three behaviours at concrete inputs — missing field,
field decoding to zero-length bytes, and a valid non-empty delta appending
record number 1. -/
theorem claim_C7_witness :
    updateHandler YModel yDecode none (dbInit0 : DB YBytes) = (dbInit0, ⟨400, none⟩) ∧
    updateHandler YModel yDecode (some "") (dbInit0 : DB YBytes) =
      (dbInit0, ⟨500, none⟩) ∧
    updateHandler YModel yDecode (some "ab") (dbInit0 : DB YBytes) =
      (⟨[⟨1, some {97, 98}, "remote"⟩], none, 2⟩, ⟨200, some 1⟩) := by
  have h := claim_C7 YModel yDecode (dbInit0 : DB YBytes)
  refine ⟨h.1, ?_, ?_⟩
  · exact h.2.1 "" (by decide)
  · rw [h.2.2 "ab" (by decide)]
    decide

/-- C8 (amended): `GET /init` deletes all existing log entries and the prior
snapshot for the document, then creates the snapshot record with the seeded
initial document state (`count=1`, `message='Hello'`, empty `items` — not
the empty state) and watermark 0 (the `MAX(seq)` of the now-empty log),
responding with that sequence. -/
theorem claim_C8 {Doc Bytes SV : Type} (E : Engine Doc Bytes SV) (seed : Doc)
    (db : DB Bytes) :
    initHandler E seed db =
      (⟨[], some ⟨E.encodeStateAsUpdate seed, 0⟩, db.nextSeq⟩, 0) := rfl

/-- C8 counterexample: the snapshot record `GET /init` creates does not hold
the empty state.  On the concrete engine the stored state is the encoding of
the seeded document, which decodes back to the seeded (non-empty) document
and differs from the encoding of the empty document. -/
theorem claim_C8_counterexample :
    (initHandler YModel ySeed (dbInit0 : DB YBytes)).1.snapshot =
      some ⟨yEncode ySeed, 0⟩ ∧
    yApply ∅ (yEncode ySeed) = some ySeed ∧
    ¬ yEncode ySeed = yEncode (∅ : YDoc) ∧ ¬ ySeed = (∅ : YDoc) := by decide

/-- C10: `GET /add-count` computes its increment from the durable snapshot
state alone — the handler is exactly the append of `addCountDeltaSnap`, a
function of the snapshot row only, so the residual log entries beyond the
watermark never influence the appended delta. -/
theorem claim_C10 {Doc Bytes SV : Type} (E : Engine Doc Bytes SV) (bump : Doc → Doc)
    (db : DB Bytes) :
    addCountHandler E bump db =
      (addCountDeltaSnap E bump db.snapshot).map
        (fun u => (dbInsertUpdate db u "local").1) := by
  unfold addCountHandler addCountDeltaSnap
  rw [dbGetSnapshotRow_fst]
  cases buildFromSnap E (db.snapshot.map (fun r => r.snapshot_data)) <;> rfl

/-- C4: for every successful compaction the watermark never decreases; when
pending entries exist, the new watermark equals the highest folded sequence
(it is the sequence of a folded entry and bounds them all) and every log
entry with sequence ≤ the new watermark is deleted (exactly the entries
above it are retained). -/
theorem claim_C4 {Doc Bytes SV : Type} (E : Engine Doc Bytes SV) (db db' : DB Bytes)
    (res : CompactResult)
    (hs : db.updates.Pairwise (fun a b => a.seq < b.seq))
    (h : syncCompact E db = (db', Except.ok res)) :
    wm db ≤ wm db' ∧
    (¬ dbLoadUpdatesSince db (wm db) = [] →
      (∃ r ∈ dbLoadUpdatesSince db (wm db), r.seq = wm db') ∧
      (∀ r ∈ dbLoadUpdatesSince db (wm db), r.seq ≤ wm db') ∧
      db'.updates = db.updates.filter (fun r => decide (wm db' < r.seq))) := by
  rcases syncCompact_spec E db db' res h with
    ⟨tmp0, hb, hemp, hdb⟩ | ⟨tmp0, tmp, g, hb, hg, ha, hdb⟩
  · subst hdb
    exact ⟨Nat.le_refl _, fun hne => absurd hemp hne⟩
  · have hgmem : g ∈ dbLoadUpdatesSince db (wm db) := getLast?_mem_of_eq hg
    have hwmlt : wm db < g.seq := of_decide_eq_true (List.mem_filter.mp hgmem).2
    have hwm2 : wm db' = g.seq := by rw [hdb]; rfl
    have hsort2 : (dbLoadUpdatesSince db (wm db)).Pairwise (fun a b => a.seq < b.seq) :=
      hs.sublist (List.filter_sublist db.updates)
    refine ⟨hwm2 ▸ Nat.le_of_lt hwmlt, fun hne => ⟨⟨g, hgmem, hwm2.symm⟩, ?_, ?_⟩⟩
    · intro r hr
      rw [hwm2]
      exact sorted_le_getLast hsort2 hg r hr
    · rw [hwm2, hdb]

/-- C4 witness: compacting the concrete state `dbA` raises the watermark
from 0 to 1, the sequence of the single (highest) folded entry, and deletes
everything at or below it. -/
theorem claim_C4_witness :
    wm dbA ≤ wm dbAC ∧
    (¬ dbLoadUpdatesSince dbA (wm dbA) = [] →
      (∃ r ∈ dbLoadUpdatesSince dbA (wm dbA), r.seq = wm dbAC) ∧
      (∀ r ∈ dbLoadUpdatesSince dbA (wm dbA), r.seq ≤ wm dbAC) ∧
      dbAC.updates = dbA.updates.filter (fun r => decide (wm dbAC < r.seq))) :=
  claim_C4 YModel dbA dbAC ⟨1, 1, 0, 1, 2⟩ (by decide) (by decide)

/-- C5: after every operation of the public surface — that is, in every
durable state reachable from a fresh deployment by init, update append,
add-count, compaction and sync — every retained log entry has sequence
strictly greater than the snapshot's watermark. -/
theorem claim_C5 {Doc Bytes SV : Type} (E : Engine Doc Bytes SV) (bump : Doc → Doc)
    (seed : Doc) (db : DB Bytes) (h : Reachable E bump seed db) :
    ∀ r ∈ db.updates, wm db < r.seq :=
  (reachable_inv E bump seed db h).retained

/-- C5 witness: the state reached from a fresh deployment by one accepted
`POST /update` satisfies the invariant — its single retained entry has
sequence 1 above the watermark 0. -/
theorem claim_C5_witness :
    wm (updateHandler YModel yDecode (some "ab") (dbInit0 : DB YBytes)).1 < 1 :=
  claim_C5 YModel yBump ySeed _
    (Relation.ReflTransGen.single (Step.update yDecode (some "ab") dbInit0))
    ⟨1, some {97, 98}, "remote"⟩ (by decide)

/-- C9: re-delivering an already-applied delta via `POST /update` does not
change the logical state of the reconstructed durable document — the rebuild
still yields the same document, only the stored log grows by one record —
given the engine's idempotent merge (applying the delta to the rebuilt
document returns it unchanged). -/
theorem claim_C9 {Doc Bytes SV : Type} (E : Engine Doc Bytes SV)
    (decode : String → Bytes) (db : DB Bytes) (s : String) (d : Doc)
    (hwm : wm db < db.nextSeq)
    (hz : ¬ E.byteLength (decode s) = 0)
    (hd : rebuildDurableDoc E db = some d)
    (hidem : E.applyUpdate d (decode s) = some d) :
    rebuildDurableDoc E (updateHandler E decode (some s) db).1 = some d ∧
    (updateHandler E decode (some s) db).1.updates.length = db.updates.length + 1 := by
  rw [updateHandler_accept E decode db s hz]
  dsimp only
  constructor
  · rw [rebuild_insert E db (decode s) "remote" d hwm hd]
    exact hidem
  · dsimp only [dbInsertUpdate]
    rw [List.length_append]
    rfl

/-- C9 witness: re-delivering the already-folded delta carrying operation 5
to the compacted state `dbAC` leaves the rebuilt document `{5}` unchanged
while the log grows from 0 to 1 records. -/
theorem claim_C9_witness :
    rebuildDurableDoc YModel (updateHandler YModel yDecode (some "\x05") dbAC).1 =
      some ({5} : Finset ℕ) ∧
    (updateHandler YModel yDecode (some "\x05") dbAC).1.updates.length =
      dbAC.updates.length + 1 :=
  claim_C9 YModel yDecode dbAC "\x05" {5} (by decide) (by decide) (by decide) (by decide)

/-- C1: compaction is observationally transparent.  For every reachable
durable state, a successful `syncCompact` run leaves the document
reconstructed as the merge of the snapshot state with the retained log
payloads in ascending sequence order encoding the same logical state as
before the run, under the engine's contract that a full-state encoding is
non-empty and rebuilds exactly the encoded document. -/
theorem claim_C1 {Doc Bytes SV : Type} (E : Engine Doc Bytes SV) (bump : Doc → Doc)
    (seed : Doc) (db db' : DB Bytes) (res : CompactResult)
    (hround : ∀ d, E.applyUpdate E.empty (E.encodeStateAsUpdate d) = some d)
    (hpos : ∀ d, 0 < E.byteLength (E.encodeStateAsUpdate d))
    (hreach : Reachable E bump seed db)
    (h : syncCompact E db = (db', Except.ok res)) :
    rebuildDurableDoc E db' = rebuildDurableDoc E db ∧
    ∃ d, rebuildDurableDoc E db = some d := by
  have hinv := reachable_inv E bump seed db hreach
  rcases syncCompact_spec E db db' res h with
    ⟨tmp0, hb, hemp, hdb⟩ | ⟨tmp0, tmp, g, hb, hg, ha, hdb⟩
  · subst hdb
    refine ⟨rfl, ⟨tmp0, ?_⟩⟩
    unfold rebuildDurableDoc
    rw [dbGetSnapshotRow_fst, dbGetSnapshotRow_snd, hb]
    dsimp only
    rw [hemp]
    rfl
  · have hrdb : rebuildDurableDoc E db = some tmp := by
      unfold rebuildDurableDoc
      rw [dbGetSnapshotRow_fst, dbGetSnapshotRow_snd, hb]
      exact ha
    have hsort2 : (dbLoadUpdatesSince db (wm db)).Pairwise (fun a b => a.seq < b.seq) :=
      hinv.sorted.sublist (List.filter_sublist db.updates)
    have hall : dbLoadUpdatesSince db (wm db) = db.updates :=
      List.filter_eq_self.mpr (fun r hr => decide_eq_true (hinv.retained r hr))
    have hle : ∀ r ∈ db.updates, r.seq ≤ g.seq := by
      rw [← hall]
      exact sorted_le_getLast hsort2 hg
    have hupd : db.updates.filter (fun r => decide (g.seq < r.seq)) = [] := by
      rw [List.filter_eq_nil_iff]
      intro r hr
      simp only [decide_eq_true_eq]
      exact Nat.not_lt.mpr (hle r hr)
    have hrdb2 : rebuildDurableDoc E db' = some tmp := by
      rw [hdb]
      unfold rebuildDurableDoc
      rw [dbGetSnapshotRow_fst, dbGetSnapshotRow_snd]
      have hbs : buildFromSnap E (some (E.encodeStateAsUpdate tmp)) = some tmp := by
        simp only [buildFromSnap]
        rw [if_pos (hpos tmp)]
        exact hround tmp
      dsimp only [Option.map, wm]
      rw [hbs]
      dsimp only
      unfold dbLoadUpdatesSince
      dsimp only
      rw [hupd]
      rfl
    exact ⟨hrdb2.trans hrdb.symm, ⟨tmp, hrdb⟩⟩

/-- C1 witness: the state `dbA` (reached from a fresh deployment by one
accepted `POST /update`) rebuilds to the document `{5}` both before and
after its successful compaction to `dbAC`. -/
theorem claim_C1_witness :
    rebuildDurableDoc YModel dbAC = rebuildDurableDoc YModel dbA ∧
    ∃ d, rebuildDurableDoc YModel dbA = some d := by
  have hstep : Step YModel yBump ySeed dbInit0 dbA := by
    have he : (updateHandler YModel yDecode (some "\x05") (dbInit0 : DB YBytes)).1 = dbA := by
      decide
    have h : Step YModel yBump ySeed dbInit0
        (updateHandler YModel yDecode (some "\x05") (dbInit0 : DB YBytes)).1 :=
      Step.update yDecode (some "\x05") dbInit0
    rw [he] at h
    exact h
  exact claim_C1 YModel yBump ySeed dbA dbAC ⟨1, 1, 0, 1, 2⟩ yRound yPos
    (Relation.ReflTransGen.single hstep) (by decide)

/-- C6: for every `POST /diff` request carrying a summary (state vector),
the response is exactly the delta of the rebuilt durable document against
that summary — on the witness engine its operations are precisely those of
the document not dominated by (not in) the summary — and it is the empty
delta when the replica holds nothing the summary does not already dominate;
a request without a summary field is answered with a null update. -/
theorem claim_C6 (db : DB YBytes) (d : YDoc) (s : String)
    (hd : rebuildDurableDoc YModel db = some d) :
    diffHandler YModel ySvDecode (some s) db = some (some (yDiff d (ySvDecode s))) ∧
    yOps (yDiff d (ySvDecode s)) = d \ ySvDecode s ∧
    (d ⊆ ySvDecode s → yOps (yDiff d (ySvDecode s)) = ∅) ∧
    diffHandler YModel ySvDecode none db = some none := by
  refine ⟨?_, rfl, ?_, rfl⟩
  · unfold diffHandler
    rw [hd]
    rfl
  · intro hsub
    show d \ ySvDecode s = ∅
    exact Finset.sdiff_eq_empty_iff_subset.mpr hsub

/-- C6 witness: against the compacted state `dbAC` (document `{5}`), a
summary already containing operation 5 receives the empty delta, and the
missing-field request receives null. -/
theorem claim_C6_witness :
    diffHandler YModel ySvDecode (some "\x05") dbAC =
      some (some (yDiff {5} (ySvDecode "\x05"))) ∧
    yOps (yDiff {5} (ySvDecode "\x05")) = {5} \ ySvDecode "\x05" ∧
    (({5} : Finset ℕ) ⊆ ySvDecode "\x05" → yOps (yDiff {5} (ySvDecode "\x05")) = ∅) ∧
    diffHandler YModel ySvDecode none dbAC = some none :=
  claim_C6 dbAC {5} "\x05" (by decide)

/-- C2: within a single `/do-sync` invocation against a peer holding
document `Q`, the pull phase (append of the pulled delta, re-compaction,
re-reconstruction) completes before the push delta is computed: the pushed
delta's operations are exactly those of the re-reconstructed durable state
`db'` not known to the peer, they are disjoint from everything the peer
knows, and in particular disjoint from any delta the peer served earlier in
the invocation (every pulled delta's operations lie in `Q`). -/
theorem claim_C2 (Q : Finset ℕ) (db db' : DB YBytes) (p : YBytes)
    (h : doSync YModel (yPeer Q) db = (db', Except.ok (some p))) :
    (∃ d2, rebuildDurableDoc YModel db' = some d2 ∧ yOps p = d2 \ Q) ∧
    yOps p ∩ Q = ∅ ∧
    (∀ sv : YSV, yOps p ∩ yOps (yDiff Q sv) = ∅) := by
  unfold doSync at h
  cases hc1 : syncCompact YModel db with
  | mk db1 r1 =>
    rw [hc1] at h
    cases r1 with
    | error e => dsimp only at h; simp at h
    | ok res1 =>
      dsimp only at h
      cases hr1 : rebuildDurableDoc YModel db1 with
      | none => rw [hr1] at h; dsimp only at h; simp at h
      | some ydoc =>
        rw [hr1] at h
        dsimp only [yPeer] at h
        cases hc2 : syncCompact YModel
            (dbInsertUpdate db1 (yDiff Q (YModel.encodeStateVector ydoc)) "pull").1 with
        | mk db3 r3 =>
          rw [hc2] at h
          cases r3 with
          | error e => dsimp only at h; simp at h
          | ok res3 =>
            dsimp only at h
            cases hr2 : rebuildDurableDoc YModel db3 with
            | none => rw [hr2] at h; dsimp only at h; simp at h
            | some ydoc2 =>
              rw [hr2] at h
              dsimp only [pushPhase, yPeer] at h
              rw [if_pos (by simp [YModel, yByteLength, yDiff])] at h
              simp only [Prod.mk.injEq, Except.ok.injEq, Option.some.injEq] at h
              obtain ⟨hdb', hp⟩ := h
              subst hdb'
              subst hp
              refine ⟨⟨ydoc2, hr2, rfl⟩, Finset.sdiff_inter_self Q ydoc2, ?_⟩
              intro sv
              show (ydoc2 \ Q) ∩ (Q \ sv) = ∅
              rw [Finset.eq_empty_iff_forall_not_mem]
              intro x hx
              rw [Finset.mem_inter, Finset.mem_sdiff, Finset.mem_sdiff] at hx
              exact hx.1.2 hx.2.1

/-- C2 witness: syncing a fresh deployment against a peer holding `{3}`
pulls `{3}`, compacts it into the snapshot, and then pushes the empty delta
— which shares no operation with the pulled one. -/
theorem claim_C2_witness :
    (∃ d2, rebuildDurableDoc YModel (⟨[], some ⟨some {3}, 1⟩, 2⟩ : DB YBytes) = some d2 ∧
      yOps (some (∅ : Finset ℕ)) = d2 \ {3}) ∧
    yOps (some (∅ : Finset ℕ)) ∩ {3} = ∅ ∧
    (∀ sv : YSV, yOps (some (∅ : Finset ℕ)) ∩ yOps (yDiff {3} sv) = ∅) :=
  claim_C2 {3} dbInit0 ⟨[], some ⟨some {3}, 1⟩, 2⟩ (some ∅) (by decide)
